import Mathlib

/-!
# Verification of `maskrcnn_benchmark/engine/trainer.py` (NAS-FCOS)

A shallow embedding of the training-loop module: the distributed loss
reduction `reduce_loss_dict`, the dashboard helper `visualize`, and the
training loop `do_train`, together with theorems about them.

Loss values (PyTorch scalar tensors) are modelled as rationals; a Python
loss dictionary is an association list from string keys to rationals.
The side-effecting parts of `do_train` are modelled as an event trace:
each library call the loop makes is recorded as one event, in program
order, so that ordering, logging and checkpointing behaviour become
statements about the trace.
-/

namespace NasFcos

/-- A Python loss dictionary: loss-component name to scalar value. -/
abbrev LossDict := List (String × ℚ)

/-- The keys of a loss dictionary, in insertion order. -/
def keysOf (d : LossDict) : List String := d.map Prod.fst

/-- Dictionary lookup `d[k]` (0 as the out-of-dictionary default; the code
only indexes with keys that are present). -/
def lookupLoss (d : LossDict) (k : String) : ℚ :=
  match d.find? (fun p => p.fst == k) with
  | some p => p.snd
  | none => 0

/-- Python's `sorted(loss_dict.keys())`. -/
def sortedKeys (d : LossDict) : List String :=
  List.insertionSort (fun a b => a ≤ b) (keysOf d)

/-- `dist.reduce(all_losses, dst=0)` as seen by the destination rank:
the elementwise sum of the tensors contributed by all processes. -/
def distReduceSum : List (List ℚ) → List ℚ
  | [] => []
  | [v] => v
  | v :: w :: ws => List.zipWith (fun a b => a + b) v (distReduceSum (w :: ws))

/-- `reduce_loss_dict` (trainer.py lines 14-36), run on process `rank` out
of `world_size` processes.  `allDicts` lists every participating process's
loss dictionary (index = rank), which is what feeds the collective
`dist.reduce`; `loss_dict` is the calling process's own argument.  On a
non-destination rank the collective leaves the local tensor unchanged. -/
def reduce_loss_dict (world_size rank : Nat) (allDicts : List LossDict)
    (loss_dict : LossDict) : LossDict :=
  if world_size < 2 then loss_dict
  else
    let loss_names := sortedKeys loss_dict
    let own := loss_names.map (fun k => lookupLoss loss_dict k)
    let afterReduce :=
      if rank = 0 then
        distReduceSum (allDicts.map (fun d => (sortedKeys d).map (fun k => lookupLoss d k)))
      else own
    let afterDiv :=
      if rank = 0 then afterReduce.map (fun v => v / (world_size : ℚ))
      else afterReduce
    loss_names.zip afterDiv

/-! ## Helper lemmas for the reduction -/

theorem zipWith_add_map (f g : String → ℚ) :
    ∀ l : List String,
      List.zipWith (fun a b => a + b) (l.map f) (l.map g) =
        l.map (fun k => f k + g k) := by
  intro l
  induction l with
  | nil => rfl
  | cons a t ih => simp [List.zipWith, ih]

theorem distReduceSum_map (names : List String) :
    ∀ ds : List LossDict, ds ≠ [] →
      distReduceSum (ds.map (fun d => names.map (fun k => lookupLoss d k))) =
        names.map (fun k => (ds.map (fun d => lookupLoss d k)).sum) := by
  intro ds
  induction ds with
  | nil => intro h; exact absurd rfl h
  | cons d rest ih =>
    intro _
    cases rest with
    | nil => simp [distReduceSum]
    | cons d2 rest2 =>
      have ihne := ih (by simp)
      simp only [List.map_cons] at ihne ⊢
      rw [distReduceSum, ihne, zipWith_add_map]
      simp

theorem lookupLoss_zip_map (f : String → ℚ) :
    ∀ (names : List String) (k : String), k ∈ names →
      lookupLoss (names.zip (names.map f)) k = f k := by
  intro names
  induction names with
  | nil => intro k hk; cases hk
  | cons a t ih =>
    intro k hk
    by_cases h : a = k
    · subst h
      simp [lookupLoss, List.zip_cons_cons, List.find?]
    · have hk' : k ∈ t := by
        cases hk with
        | head => exact absurd rfl h
        | tail _ htail => exact htail
      have hbeq : (a == k) = false := beq_eq_false_iff_ne.mpr h
      simp only [List.map_cons, List.zip_cons_cons]
      simp only [lookupLoss, List.find?, hbeq]
      exact ih k hk'

theorem keysOf_reduce_rank0 (allDicts : List LossDict) (d0 : LossDict)
    (hw : ¬ allDicts.length < 2)
    (hkeys : ∀ d ∈ allDicts, sortedKeys d = sortedKeys d0) :
    reduce_loss_dict allDicts.length 0 allDicts d0 =
      (sortedKeys d0).zip ((sortedKeys d0).map
        (fun k => (allDicts.map (fun d => lookupLoss d k)).sum / (allDicts.length : ℚ))) := by
  have hne : allDicts ≠ [] := by
    intro h
    rw [h] at hw
    simp at hw
  have hmapeq : allDicts.map (fun d => (sortedKeys d).map (fun k => lookupLoss d k))
      = allDicts.map (fun d => (sortedKeys d0).map (fun k => lookupLoss d k)) :=
    List.map_congr_left (fun d hd => by rw [hkeys d hd])
  unfold reduce_loss_dict
  rw [if_neg hw]
  simp only [if_pos rfl, if_true, hmapeq, distReduceSum_map _ _ hne, List.map_map]
  rfl

theorem keysOf_reduce_ranknz (w rank : Nat) (allDicts : List LossDict) (d0 : LossDict)
    (hw : ¬ w < 2) (hr : ¬ rank = 0) :
    keysOf (reduce_loss_dict w rank allDicts d0) = sortedKeys d0 := by
  unfold reduce_loss_dict keysOf
  rw [if_neg hw]
  simp only [if_neg hr]
  exact List.map_fst_zip _ _ (by simp)

/-- C3: for a world of at least two processes, `reduce_loss_dict` returns a
dictionary with exactly the key set of its input on every rank, and on rank 0
each value is the sum of that key's values over all participating processes
divided by the world size. -/
theorem claim3_reduce_loss_dict_averages (allDicts : List LossDict) (d0 : LossDict)
    (hw : 2 ≤ allDicts.length)
    (hkeys : ∀ d ∈ allDicts, sortedKeys d = sortedKeys d0) :
    (∀ rank k, k ∈ keysOf (reduce_loss_dict allDicts.length rank allDicts d0) ↔
        k ∈ keysOf d0) ∧
    (∀ k, k ∈ keysOf d0 →
      lookupLoss (reduce_loss_dict allDicts.length 0 allDicts d0) k =
        (allDicts.map (fun d => lookupLoss d k)).sum / (allDicts.length : ℚ)) := by
  have hw' : ¬ allDicts.length < 2 := by omega
  have hperm : (sortedKeys d0).Perm (keysOf d0) := List.perm_insertionSort _ _
  have hred := keysOf_reduce_rank0 allDicts d0 hw' hkeys
  have hkeys0 : keysOf (reduce_loss_dict allDicts.length 0 allDicts d0) = sortedKeys d0 := by
    rw [hred]
    unfold keysOf
    exact List.map_fst_zip _ _ (by simp)
  constructor
  · intro rank k
    by_cases hr : rank = 0
    · subst hr
      rw [hkeys0]
      exact hperm.mem_iff
    · rw [keysOf_reduce_ranknz _ _ _ _ hw' hr]
      exact hperm.mem_iff
  · intro k hk
    rw [hred, lookupLoss_zip_map _ _ _ (hperm.mem_iff.mpr hk)]

theorem claim3_witness :
    (lookupLoss
        (reduce_loss_dict 2 0 [[("a", (1 : ℚ))], [("a", (3 : ℚ))]] [("a", (1 : ℚ))]) "a"
      = ([[("a", (1 : ℚ))], [("a", (3 : ℚ))]].map (fun d => lookupLoss d "a")).sum
          / ((2 : Nat) : ℚ)) ∧
    ("a" ∈ keysOf (reduce_loss_dict 2 0 [[("a", (1 : ℚ))], [("a", (3 : ℚ))]]
        [("a", (1 : ℚ))]) ↔ "a" ∈ keysOf [("a", (1 : ℚ))]) :=
  ⟨(claim3_reduce_loss_dict_averages
      [[("a", (1 : ℚ))], [("a", (3 : ℚ))]] [("a", (1 : ℚ))]
      (by decide) (by decide)).2 "a" (by decide),
   (claim3_reduce_loss_dict_averages
      [[("a", (1 : ℚ))], [("a", (3 : ℚ))]] [("a", (1 : ℚ))]
      (by decide) (by decide)).1 0 "a"⟩

/-- C6: when the world size is below two, `reduce_loss_dict` returns its
argument unchanged: no reduction, division or copying happens. -/
theorem claim6_reduce_loss_dict_identity (world_size rank : Nat)
    (allDicts : List LossDict) (loss_dict : LossDict)
    (h : world_size < 2) :
    reduce_loss_dict world_size rank allDicts loss_dict = loss_dict := by
  unfold reduce_loss_dict
  rw [if_pos h]

theorem claim6_witness :
    reduce_loss_dict 1 0 [[("loss_cls", (1 : ℚ))]] [("loss_cls", (1 : ℚ))]
      = [("loss_cls", (1 : ℚ))] :=
  claim6_reduce_loss_dict_identity 1 0 [[("loss_cls", (1 : ℚ))]]
    [("loss_cls", (1 : ℚ))] (by decide)

/-! ## The training loop `do_train` as an event-trace semantics -/

/-- A value stored in the mutable `arguments` dictionary of `do_train`.
The loop itself only ever stores the natural-number iteration count;
other entries (owned by the caller) may hold arbitrary payloads,
represented here by the string constructor. -/
inductive ArgVal where
  | natv : Nat → ArgVal
  | strv : String → ArgVal
deriving DecidableEq, Repr

/-- The mutable `arguments` dictionary threaded to the checkpointer. -/
abbrev ArgMap := List (String × ArgVal)

/-- Python dictionary read `m[k]`. -/
def lookupArg (m : ArgMap) (k : String) : Option ArgVal :=
  (m.find? (fun p => p.fst == k)).map Prod.snd

/-- Python dictionary write `m[k] = v`: replaces the value at an existing
key, otherwise appends the binding. -/
def setArg (m : ArgMap) (k : String) (v : ArgVal) : ArgMap :=
  if m.any (fun p => p.fst == k) then
    m.map (fun p => if p.fst == k then (k, v) else p)
  else m ++ [(k, v)]

/-- `start_iter = arguments["iteration"]` (trainer.py line 77); the loop is
only ever entered with a natural number stored there. -/
def getIteration (m : ArgMap) : Nat :=
  match lookupArg m "iteration" with
  | some (ArgVal.natv n) => n
  | _ => 0

/-- The source a scalar written to the dashboard is read from. -/
inductive ScalarSrc where
  | lrGroup : Nat → ScalarSrc
  | meterAvg : String → ScalarSrc
deriving DecidableEq, Repr

/-- One observable effect of the loop body, in program order. -/
inductive Event where
  | fetchBatch : Event
  | schedulerStep : Event
  | moveToDevice : Event
  | forward : Event
  | printValueError : Event
  | lossSum : ℚ → Event
  | reduceLosses : Event
  | metersUpdate : Event
  | zeroGrad : Event
  | backward : Event
  | optimizerStep : Event
  | metersTimeUpdate : Event
  | logText : Nat → Event
  | scalarWrite : String → ScalarSrc → Nat → Event
  | checkpointSave : String → ArgMap → Event
deriving DecidableEq, Repr

/-- `visualize` (trainer.py lines 39-60): the scalars it writes to the
dashboard writer, in order. -/
def visualize (visual_mode : Nat) (optimizer_split : Bool) (iteration : Nat) :
    List Event :=
  (if optimizer_split then
    [Event.scalarWrite "train/enc_lr" (ScalarSrc.lrGroup 0) iteration,
     Event.scalarWrite "train/dec_lr" (ScalarSrc.lrGroup 1) iteration]
  else
    [Event.scalarWrite "train/lr" (ScalarSrc.lrGroup 0) iteration])
  ++ [Event.scalarWrite "train/loss" (ScalarSrc.meterAvg "loss") iteration]
  ++ (if visual_mode = 0 ∨ visual_mode = 1 then
        [Event.scalarWrite "train/loss_retina_cls" (ScalarSrc.meterAvg "loss_retina_cls") iteration,
         Event.scalarWrite "train/loss_retina_reg" (ScalarSrc.meterAvg "loss_retina_reg") iteration]
      else if visual_mode = 2 ∨ visual_mode = 3 then
        [Event.scalarWrite "train/loss_densebox_cls" (ScalarSrc.meterAvg "loss_densebox_cls") iteration,
         Event.scalarWrite "train/loss_densebox_reg" (ScalarSrc.meterAvg "loss_densebox_reg") iteration,
         Event.scalarWrite "train/loss_reg_weights" (ScalarSrc.meterAvg "loss_reg_weights") iteration]
      else [])

/-- Python's `"{:07d}".format(n)`: decimal, zero-padded to width 7. -/
def format07 (n : Nat) : String :=
  let s := toString n
  if s.length < 7 then String.mk (List.replicate (7 - s.length) '0') ++ s else s

/-- `losses = sum(loss for loss in loss_dict.values())`. -/
def sumValues (d : LossDict) : ℚ := (d.map Prod.snd).sum

/-- The environment `do_train` runs against.  `forwards` gives, per batch of
the data loader, the outcome of `model(images, targets)`: `some d` is a
normal return of loss dictionary `d`, `none` is a raised `ValueError`.
`writerSome` says whether the `writer` argument is not `None`. -/
structure Env where
  forwards : List (Option LossDict)
  checkpoint_period : Nat
  writerSome : Bool

/-- Result of one loop-body iteration.  `loss_dict` is the state of the
Python local variable `loss_dict` after the body (`none` = still unbound);
`aborted` means the body raised `NameError` at the stale loss read. -/
structure StepRes where
  events : List Event
  args : ArgMap
  loss_dict : Option LossDict
  aborted : Bool

/-- One iteration of the `do_train` loop body (trainer.py lines 84-141),
entered with enumerate counter `enumIdx`, arguments `args0`, the current
binding `prev` of the local `loss_dict`, and forward outcome `fw`. -/
def iterStep (env : Env) (max_iter enumIdx : Nat) (args0 : ArgMap)
    (prev : Option LossDict) (fw : Option LossDict) : StepRes :=
  let iteration := enumIdx + 1
  let args := setArg args0 "iteration" (ArgVal.natv iteration)
  let preEvents : List Event :=
    [Event.fetchBatch, Event.schedulerStep, Event.moveToDevice]
  let fwRes : List Event × Option LossDict :=
    match fw with
    | some d => ([Event.forward], some d)
    | none => ([Event.forward, Event.printValueError], prev)
  match fwRes.2 with
  | none =>
    -- `sum(loss for loss in loss_dict.values())` with `loss_dict` unbound
    ⟨preEvents ++ fwRes.1, args, none, true⟩
  | some d =>
    let mainEvents : List Event :=
      [Event.lossSum (sumValues d), Event.reduceLosses, Event.metersUpdate,
       Event.zeroGrad, Event.backward, Event.optimizerStep, Event.metersTimeUpdate]
    let logEvents : List Event :=
      if iteration % 20 = 0 ∨ iteration = max_iter then
        Event.logText iteration ::
          (if env.writerSome then visualize 5 true iteration else [])
      else []
    let ckptEvents : List Event :=
      (if iteration % env.checkpoint_period = 0 then
        [Event.checkpointSave ("model_" ++ format07 iteration) args]
      else [])
      ++ (if iteration = max_iter then [Event.checkpointSave "model_final" args] else [])
    ⟨preEvents ++ fwRes.1 ++ mainEvents ++ logEvents ++ ckptEvents,
     args, some d, false⟩

/-- How a run of `do_train` ends: normally, or by an uncaught `NameError`
raised at the given iteration. -/
inductive Outcome where
  | done : Outcome
  | nameError : Nat → Outcome
deriving DecidableEq, Repr

/-- The observable result of a run: its event trace, the final state of the
`arguments` dictionary, and how it ended. -/
structure RunRes where
  trace : List Event
  args : ArgMap
  outcome : Outcome

/-- The `for iteration, (images, targets, _) in enumerate(data_loader,
start_iter)` loop, one `iterStep` per remaining batch. -/
def loopGo (env : Env) (max_iter : Nat) :
    Nat → ArgMap → Option LossDict → List (Option LossDict) → RunRes
  | _, args, _, [] => ⟨[], args, Outcome.done⟩
  | enumIdx, args, prev, fw :: rest =>
    let s := iterStep env max_iter enumIdx args prev fw
    if s.aborted then ⟨s.events, s.args, Outcome.nameError (enumIdx + 1)⟩
    else
      let r := loopGo env max_iter (enumIdx + 1) s.args s.loss_dict rest
      ⟨s.events ++ r.trace, r.args, r.outcome⟩

/-- `do_train` (trainer.py lines 62-149): `max_iter = len(data_loader)`,
`start_iter = arguments["iteration"]`, and the local `loss_dict` starts
unbound. -/
def do_train (env : Env) (arguments : ArgMap) : RunRes :=
  loopGo env env.forwards.length (getIteration arguments) arguments none env.forwards

/-! ## Facts about the arguments dictionary -/

theorem lookupArg_setArg_self (m : ArgMap) (k : String) (v : ArgVal) :
    lookupArg (setArg m k v) k = some v := by
  unfold setArg lookupArg
  split
  next h =>
    induction m with
    | nil => simp at h
    | cons q t ih =>
      by_cases hq : (q.fst == k) = true
      · rw [List.map_cons, if_pos hq,
          @List.find?_cons_of_pos _ (fun p => p.fst == k) (k, v) _ (by simp)]
        rfl
      · rw [List.map_cons, if_neg hq,
          @List.find?_cons_of_neg _ (fun p => p.fst == k) q _ hq]
        exact ih (by simpa [hq] using h)
  next h =>
    have hnone : m.find? (fun p => p.fst == k) = none := by
      rw [List.find?_eq_none]
      intro p hp hpk
      exact h (List.any_eq_true.mpr ⟨p, hp, hpk⟩)
    rw [List.find?_append, hnone]
    simp [List.find?]

theorem find?_map_setKey (k k' : String) (v : ArgVal) (h : k' ≠ k) :
    ∀ m : ArgMap,
      (m.map (fun p => if p.fst == k then (k, v) else p)).find? (fun p => p.fst == k')
        = m.find? (fun p => p.fst == k') := by
  intro m
  induction m with
  | nil => rfl
  | cons q t ih =>
    by_cases hq : (q.fst == k) = true
    · have hqk : q.fst = k := eq_of_beq hq
      have hkk' : (k == k') = false := beq_eq_false_iff_ne.mpr (Ne.symm h)
      rw [List.map_cons, if_pos hq,
        @List.find?_cons_of_neg _ (fun p => p.fst == k') (k, v) _ (by simp [hkk']),
        @List.find?_cons_of_neg _ (fun p => p.fst == k') q _ (by simp [hqk, hkk'])]
      exact ih
    · rw [List.map_cons, if_neg hq]
      by_cases hq' : (q.fst == k') = true
      · rw [@List.find?_cons_of_pos _ (fun p => p.fst == k') q _ hq',
          @List.find?_cons_of_pos _ (fun p => p.fst == k') q _ hq']
      · rw [@List.find?_cons_of_neg _ (fun p => p.fst == k') q _ hq',
          @List.find?_cons_of_neg _ (fun p => p.fst == k') q _ hq']
        exact ih

theorem lookupArg_setArg_ne (m : ArgMap) (k k' : String) (v : ArgVal)
    (h : k' ≠ k) :
    lookupArg (setArg m k v) k' = lookupArg m k' := by
  unfold setArg lookupArg
  split
  · rw [find?_map_setKey k k' v h]
  · have hkk' : (k == k') = false := beq_eq_false_iff_ne.mpr (Ne.symm h)
    rw [List.find?_append]
    simp [List.find?, hkk']

/-! ## Facts about one loop iteration -/

theorem iterStep_args (env : Env) (m e : Nat) (args : ArgMap)
    (prev fw : Option LossDict) :
    (iterStep env m e args prev fw).args
      = setArg args "iteration" (ArgVal.natv (e + 1)) := by
  cases fw <;> cases prev <;> rfl

theorem iterStep_aborted_fwsome (env : Env) (m e : Nat) (args : ArgMap)
    (prev : Option LossDict) (d : LossDict) :
    (iterStep env m e args prev (some d)).aborted = false := rfl

theorem iterStep_events_fwsome (env : Env) (m e : Nat) (args : ArgMap)
    (prev : Option LossDict) (d : LossDict) :
    (iterStep env m e args prev (some d)).events =
      [Event.fetchBatch, Event.schedulerStep, Event.moveToDevice, Event.forward,
       Event.lossSum (sumValues d), Event.reduceLosses, Event.metersUpdate,
       Event.zeroGrad, Event.backward, Event.optimizerStep, Event.metersTimeUpdate]
      ++ (if (e + 1) % 20 = 0 ∨ (e + 1) = m then
            Event.logText (e + 1) ::
              (if env.writerSome then visualize 5 true (e + 1) else [])
          else [])
      ++ ((if (e + 1) % env.checkpoint_period = 0 then
            [Event.checkpointSave ("model_" ++ format07 (e + 1))
              (setArg args "iteration" (ArgVal.natv (e + 1)))]
          else [])
          ++ (if (e + 1) = m then
            [Event.checkpointSave "model_final"
              (setArg args "iteration" (ArgVal.natv (e + 1)))]
          else [])) := rfl

theorem iterStep_events_caught (env : Env) (m e : Nat) (args : ArgMap)
    (d : LossDict) :
    (iterStep env m e args (some d) none).events =
      [Event.fetchBatch, Event.schedulerStep, Event.moveToDevice, Event.forward,
       Event.printValueError,
       Event.lossSum (sumValues d), Event.reduceLosses, Event.metersUpdate,
       Event.zeroGrad, Event.backward, Event.optimizerStep, Event.metersTimeUpdate]
      ++ (if (e + 1) % 20 = 0 ∨ (e + 1) = m then
            Event.logText (e + 1) ::
              (if env.writerSome then visualize 5 true (e + 1) else [])
          else [])
      ++ ((if (e + 1) % env.checkpoint_period = 0 then
            [Event.checkpointSave ("model_" ++ format07 (e + 1))
              (setArg args "iteration" (ArgVal.natv (e + 1)))]
          else [])
          ++ (if (e + 1) = m then
            [Event.checkpointSave "model_final"
              (setArg args "iteration" (ArgVal.natv (e + 1)))]
          else [])) := rfl

theorem iterStep_events_abort (env : Env) (m e : Nat) (args : ArgMap) :
    (iterStep env m e args none none).events =
      [Event.fetchBatch, Event.schedulerStep, Event.moveToDevice, Event.forward,
       Event.printValueError] := rfl

theorem checkpoint_mem_tail (cp maxIt : Nat) (ws : Bool) (it : Nat)
    (argsSnap : ArgMap) (name : String) (a : ArgMap) (pre : List Event)
    (hmem : Event.checkpointSave name a ∈ pre ++
      (if it % 20 = 0 ∨ it = maxIt then
        Event.logText it :: (if ws then visualize 5 true it else [])
      else []) ++
      ((if it % cp = 0 then
        [Event.checkpointSave ("model_" ++ format07 it) argsSnap]
      else []) ++
      (if it = maxIt then [Event.checkpointSave "model_final" argsSnap] else [])))
    (hpre : ∀ ev ∈ pre, ∀ n' : String, ∀ a' : ArgMap,
      ev ≠ Event.checkpointSave n' a') :
    a = argsSnap ∧
    ((name = "model_" ++ format07 it ∧ it % cp = 0) ∨
     (name = "model_final" ∧ it = maxIt)) := by
  rcases List.mem_append.mp hmem with hl | hr
  · rcases List.mem_append.mp hl with hp | hlog
    · exact absurd rfl (hpre _ hp name a)
    · split at hlog
      · rcases List.mem_cons.mp hlog with heq | hvis
        · cases heq
        · split at hvis
          · simp [visualize] at hvis
          · cases hvis
      · cases hlog
  · rcases List.mem_append.mp hr with hc | hf
    · split at hc
      next hcond =>
        rcases List.mem_singleton.mp hc with heq
        injection heq with h1 h2
        exact ⟨h2, Or.inl ⟨h1, hcond⟩⟩
      next => cases hc
    · split at hf
      next hcond =>
        rcases List.mem_singleton.mp hf with heq
        injection heq with h1 h2
        exact ⟨h2, Or.inr ⟨h1, hcond⟩⟩
      next => cases hf

theorem scalar_mem_tail (cp maxIt : Nat) (ws : Bool) (it : Nat)
    (argsSnap : ArgMap) (n : String) (src : ScalarSrc) (i : Nat)
    (pre : List Event)
    (hmem : Event.scalarWrite n src i ∈ pre ++
      (if it % 20 = 0 ∨ it = maxIt then
        Event.logText it :: (if ws then visualize 5 true it else [])
      else []) ++
      ((if it % cp = 0 then
        [Event.checkpointSave ("model_" ++ format07 it) argsSnap]
      else []) ++
      (if it = maxIt then [Event.checkpointSave "model_final" argsSnap] else [])))
    (hpre : ∀ ev ∈ pre, ∀ n' : String, ∀ src' : ScalarSrc, ∀ i' : Nat,
      ev ≠ Event.scalarWrite n' src' i') :
    ws = true ∧ i = it ∧
    (n = "train/enc_lr" ∨ n = "train/dec_lr" ∨ n = "train/loss") := by
  rcases List.mem_append.mp hmem with hl | hr
  · rcases List.mem_append.mp hl with hp | hlog
    · exact absurd rfl (hpre _ hp n src i)
    · split at hlog
      · rcases List.mem_cons.mp hlog with heq | hvis
        · cases heq
        · split at hvis
          next hw =>
            simp [visualize] at hvis
            rcases hvis with ⟨h1, _, h3⟩ | ⟨h1, _, h3⟩ | ⟨h1, _, h3⟩ <;>
              exact ⟨hw, h3, by simp [h1]⟩
          next => cases hvis
      · cases hlog
  · rcases List.mem_append.mp hr with hc | hf
    · split at hc
      · rcases List.mem_singleton.mp hc with heq
        cases heq
      · cases hc
    · split at hf
      · rcases List.mem_singleton.mp hf with heq
        cases heq
      · cases hf

theorem iterStep_checkpoint (env : Env) (m e : Nat) (args : ArgMap)
    (prev fw : Option LossDict) (name : String) (a : ArgMap)
    (h : Event.checkpointSave name a ∈ (iterStep env m e args prev fw).events) :
    a = setArg args "iteration" (ArgVal.natv (e + 1)) ∧
    ((name = "model_" ++ format07 (e + 1) ∧ (e + 1) % env.checkpoint_period = 0) ∨
     (name = "model_final" ∧ (e + 1) = m)) := by
  cases fw with
  | some d =>
    rw [iterStep_events_fwsome] at h
    exact checkpoint_mem_tail env.checkpoint_period m env.writerSome (e + 1)
      (setArg args "iteration" (ArgVal.natv (e + 1))) name a
      [Event.fetchBatch, Event.schedulerStep, Event.moveToDevice, Event.forward,
       Event.lossSum (sumValues d), Event.reduceLosses, Event.metersUpdate,
       Event.zeroGrad, Event.backward, Event.optimizerStep, Event.metersTimeUpdate]
      h (by rintro ev hev n' a' rfl; simp at hev)
  | none =>
    cases prev with
    | some d =>
      rw [iterStep_events_caught] at h
      exact checkpoint_mem_tail env.checkpoint_period m env.writerSome (e + 1)
        (setArg args "iteration" (ArgVal.natv (e + 1))) name a
        [Event.fetchBatch, Event.schedulerStep, Event.moveToDevice, Event.forward,
         Event.printValueError,
         Event.lossSum (sumValues d), Event.reduceLosses, Event.metersUpdate,
         Event.zeroGrad, Event.backward, Event.optimizerStep, Event.metersTimeUpdate]
        h (by rintro ev hev n' a' rfl; simp at hev)
    | none =>
      rw [iterStep_events_abort] at h
      simp at h

theorem iterStep_scalar (env : Env) (m e : Nat) (args : ArgMap)
    (prev fw : Option LossDict) (n : String) (src : ScalarSrc) (i : Nat)
    (h : Event.scalarWrite n src i ∈ (iterStep env m e args prev fw).events) :
    env.writerSome = true ∧ i = e + 1 ∧
    (n = "train/enc_lr" ∨ n = "train/dec_lr" ∨ n = "train/loss") := by
  cases fw with
  | some d =>
    rw [iterStep_events_fwsome] at h
    exact scalar_mem_tail env.checkpoint_period m env.writerSome (e + 1)
      (setArg args "iteration" (ArgVal.natv (e + 1))) n src i
      [Event.fetchBatch, Event.schedulerStep, Event.moveToDevice, Event.forward,
       Event.lossSum (sumValues d), Event.reduceLosses, Event.metersUpdate,
       Event.zeroGrad, Event.backward, Event.optimizerStep, Event.metersTimeUpdate]
      h (by rintro ev hev n' src' i' rfl; simp at hev)
  | none =>
    cases prev with
    | some d =>
      rw [iterStep_events_caught] at h
      exact scalar_mem_tail env.checkpoint_period m env.writerSome (e + 1)
        (setArg args "iteration" (ArgVal.natv (e + 1))) n src i
        [Event.fetchBatch, Event.schedulerStep, Event.moveToDevice, Event.forward,
         Event.printValueError,
         Event.lossSum (sumValues d), Event.reduceLosses, Event.metersUpdate,
         Event.zeroGrad, Event.backward, Event.optimizerStep, Event.metersTimeUpdate]
        h (by rintro ev hev n' src' i' rfl; simp at hev)
    | none =>
      rw [iterStep_events_abort] at h
      simp at h

theorem iterStep_logText_mem (env : Env) (m e : Nat) (args : ArgMap)
    (prev : Option LossDict) (d : LossDict)
    (hcond : (e + 1) % 20 = 0 ∨ (e + 1) = m) :
    Event.logText (e + 1) ∈ (iterStep env m e args prev (some d)).events := by
  rw [iterStep_events_fwsome]
  refine List.mem_append_left _ (List.mem_append_right _ ?_)
  rw [if_pos hcond]
  exact List.mem_cons_self _ _

/-! ## Facts about the whole loop -/

theorem loopGo_nil (env : Env) (m e : Nat) (args : ArgMap)
    (prev : Option LossDict) :
    loopGo env m e args prev [] = ⟨[], args, Outcome.done⟩ := rfl

theorem loopGo_cons (env : Env) (m e : Nat) (args : ArgMap)
    (prev fw : Option LossDict) (rest : List (Option LossDict)) :
    loopGo env m e args prev (fw :: rest) =
      if (iterStep env m e args prev fw).aborted then
        ⟨(iterStep env m e args prev fw).events,
         (iterStep env m e args prev fw).args, Outcome.nameError (e + 1)⟩
      else
        ⟨(iterStep env m e args prev fw).events ++
          (loopGo env m (e + 1) (iterStep env m e args prev fw).args
            (iterStep env m e args prev fw).loss_dict rest).trace,
         (loopGo env m (e + 1) (iterStep env m e args prev fw).args
           (iterStep env m e args prev fw).loss_dict rest).args,
         (loopGo env m (e + 1) (iterStep env m e args prev fw).args
           (iterStep env m e args prev fw).loss_dict rest).outcome⟩ := rfl

theorem loopGo_mem (env : Env) (m : Nat) :
    ∀ (l : List (Option LossDict)) (e : Nat) (args : ArgMap)
      (prev : Option LossDict) (ev : Event),
      ev ∈ (loopGo env m e args prev l).trace →
      ∃ idx a p f, e ≤ idx ∧ ev ∈ (iterStep env m idx a p f).events := by
  intro l
  induction l with
  | nil =>
    intro e args prev ev h
    rw [loopGo_nil] at h
    cases h
  | cons fw rest ih =>
    intro e args prev ev h
    rw [loopGo_cons] at h
    by_cases hab : (iterStep env m e args prev fw).aborted = true
    · rw [if_pos hab] at h
      exact ⟨e, args, prev, fw, Nat.le_refl e, h⟩
    · rw [if_neg hab] at h
      rcases List.mem_append.mp h with h1 | h2
      · exact ⟨e, args, prev, fw, Nat.le_refl e, h1⟩
      · obtain ⟨idx, a, p, f, hle, hm⟩ := ih (e + 1) _ _ ev h2
        exact ⟨idx, a, p, f, Nat.le_trans (Nat.le_succ e) hle, hm⟩

theorem loopGo_args_frame (env : Env) (m : Nat) :
    ∀ (l : List (Option LossDict)) (e : Nat) (args : ArgMap)
      (prev : Option LossDict) (k : String), k ≠ "iteration" →
      lookupArg (loopGo env m e args prev l).args k = lookupArg args k := by
  intro l
  induction l with
  | nil => intro e args prev k _; rfl
  | cons fw rest ih =>
    intro e args prev k hk
    rw [loopGo_cons]
    by_cases hab : (iterStep env m e args prev fw).aborted = true
    · rw [if_pos hab]
      show lookupArg (iterStep env m e args prev fw).args k = _
      rw [iterStep_args]
      exact lookupArg_setArg_ne args _ k _ hk
    · rw [if_neg hab]
      show lookupArg (loopGo env m (e + 1) (iterStep env m e args prev fw).args
        (iterStep env m e args prev fw).loss_dict rest).args k = _
      rw [ih (e + 1) _ _ k hk, iterStep_args]
      exact lookupArg_setArg_ne args _ k _ hk

theorem loopGo_log (env : Env) (m : Nat) :
    ∀ (l : List (Option LossDict)) (e : Nat) (args : ArgMap)
      (prev : Option LossDict),
      (∀ f ∈ l, f ≠ none) →
      ∀ i, e < i → i ≤ e + l.length → (i % 20 = 0 ∨ i = m) →
      Event.logText i ∈ (loopGo env m e args prev l).trace := by
  intro l
  induction l with
  | nil =>
    intro e args prev _ i h1 h2 _
    simp only [List.length_nil, Nat.add_zero] at h2
    exact absurd (Nat.lt_of_lt_of_le h1 h2) (Nat.lt_irrefl e)
  | cons fw rest ih =>
    intro e args prev hall i h1 h2 hcond
    obtain ⟨d, rfl⟩ : ∃ d, fw = some d := by
      cases fw with
      | none => exact absurd rfl (hall none (List.mem_cons_self _ _))
      | some d => exact ⟨d, rfl⟩
    rw [loopGo_cons]
    rw [if_neg (by rw [iterStep_aborted_fwsome]; exact Bool.false_ne_true)]
    by_cases hi : i = e + 1
    · subst hi
      exact List.mem_append_left _ (iterStep_logText_mem env m e args prev d hcond)
    · refine List.mem_append_right _ ?_
      refine ih (e + 1) _ _ (fun f hf => hall f (List.mem_cons_of_mem _ hf)) i
        (by omega) ?_ hcond
      simp only [List.length_cons] at h2
      omega

/-! ## The claims about `do_train` -/

/-- C1: when the forward pass raises `ValueError` in an iteration where
`loss_dict` already holds a value from an earlier iteration, the exception is
caught and printed, it is not re-raised, the iteration is not aborted, and
the loss computation that follows runs on the stale previous dictionary,
which also stays bound afterwards. -/
theorem claim1_valueerror_caught_stale_loss (env : Env) (m e : Nat)
    (args : ArgMap) (d : LossDict) :
    (iterStep env m e args (some d) none).aborted = false ∧
    Event.printValueError ∈ (iterStep env m e args (some d) none).events ∧
    Event.lossSum (sumValues d) ∈ (iterStep env m e args (some d) none).events ∧
    (iterStep env m e args (some d) none).loss_dict = some d := by
  refine ⟨rfl, ?_, ?_, rfl⟩ <;>
    rw [iterStep_events_caught] <;>
    exact List.mem_append_left _ (List.mem_append_left _ (by simp))

/-- C2: when the forward pass raises `ValueError` on the very first loop
iteration, the loss computation reads `loss_dict` before it was ever
assigned: the run ends in the `NameError` outcome at that iteration and no
loss sum is ever computed. -/
theorem claim2_first_iteration_nameerror (rest : List (Option LossDict))
    (cp : Nat) (ws : Bool) (args : ArgMap) :
    (do_train ⟨none :: rest, cp, ws⟩ args).outcome
        = Outcome.nameError (getIteration args + 1) ∧
    ∀ q : ℚ, Event.lossSum q ∉ (do_train ⟨none :: rest, cp, ws⟩ args).trace := by
  constructor
  · rfl
  · intro q hq
    have htr : (do_train ⟨none :: rest, cp, ws⟩ args).trace
        = [Event.fetchBatch, Event.schedulerStep, Event.moveToDevice,
           Event.forward, Event.printValueError] := rfl
    rw [htr] at hq
    simp at hq

theorem claim2_witness :
    (do_train ⟨[none], 5, true⟩ [("iteration", ArgVal.natv 0)]).outcome
      = Outcome.nameError 1 ∧
    Event.lossSum 0 ∉ (do_train ⟨[none], 5, true⟩
      [("iteration", ArgVal.natv 0)]).trace :=
  ⟨(claim2_first_iteration_nameerror [] 5 true [("iteration", ArgVal.natv 0)]).1,
   (claim2_first_iteration_nameerror [] 5 true [("iteration", ArgVal.natv 0)]).2 0⟩

/-- C4: every checkpoint save in a run of `do_train` passes an arguments
snapshot whose `"iteration"` entry is the current 1-based iteration number,
and a periodic save's name is `model_%07d` of that same number (the other
possibility being the final save `model_final` at the last iteration). -/
theorem claim4_checkpoint_iteration_current (env : Env) (args : ArgMap)
    (name : String) (a : ArgMap)
    (h : Event.checkpointSave name a ∈ (do_train env args).trace) :
    ∃ i, 1 ≤ i ∧ lookupArg a "iteration" = some (ArgVal.natv i) ∧
      ((name = "model_" ++ format07 i ∧ i % env.checkpoint_period = 0) ∨
       (name = "model_final" ∧ i = env.forwards.length)) := by
  obtain ⟨idx, a', p, f, _, hmem⟩ :=
    loopGo_mem env env.forwards.length env.forwards (getIteration args) args none
      (Event.checkpointSave name a) h
  obtain ⟨ha, hc⟩ :=
    iterStep_checkpoint env env.forwards.length idx a' p f name a hmem
  refine ⟨idx + 1, Nat.succ_le_succ (Nat.zero_le idx), ?_, hc⟩
  rw [ha]
  exact lookupArg_setArg_self a' "iteration" (ArgVal.natv (idx + 1))

theorem claim4_witness :
    ∃ i, 1 ≤ i ∧
      lookupArg [("iteration", ArgVal.natv 1)] "iteration"
        = some (ArgVal.natv i) ∧
      (("model_0000001" = "model_" ++ format07 i ∧ i % 1 = 0) ∨
       ("model_0000001" = "model_final" ∧ i = 1)) :=
  claim4_checkpoint_iteration_current ⟨[some [("a", (1 : ℚ))]], 1, true⟩
    [("iteration", ArgVal.natv 0)] "model_0000001" [("iteration", ArgVal.natv 1)]
    (by decide)

/-- C5: the loop body performs, in order: fetch a batch, step the scheduler,
move the batch to the device, run the forward pass, sum the losses, reduce
the losses, update the meters, zero the gradients, run the scaled-loss
backward pass, step the optimizer, update the time meters, then conditional
logging followed by conditional checkpointing. -/
theorem claim5_loop_body_order (env : Env) (m e : Nat) (args : ArgMap)
    (prev : Option LossDict) (d : LossDict) :
    (iterStep env m e args prev (some d)).events =
      [Event.fetchBatch, Event.schedulerStep, Event.moveToDevice, Event.forward,
       Event.lossSum (sumValues d), Event.reduceLosses, Event.metersUpdate,
       Event.zeroGrad, Event.backward, Event.optimizerStep, Event.metersTimeUpdate]
      ++ (if (e + 1) % 20 = 0 ∨ (e + 1) = m then
            Event.logText (e + 1) ::
              (if env.writerSome then visualize 5 true (e + 1) else [])
          else [])
      ++ ((if (e + 1) % env.checkpoint_period = 0 then
            [Event.checkpointSave ("model_" ++ format07 (e + 1))
              (setArg args "iteration" (ArgVal.natv (e + 1)))]
          else [])
          ++ (if (e + 1) = m then
            [Event.checkpointSave "model_final"
              (setArg args "iteration" (ArgVal.natv (e + 1)))]
          else [])) :=
  iterStep_events_fwsome env m e args prev d

/-- C7: over a whole run of `do_train`, the only key of the mutable
arguments dictionary the loop writes is `"iteration"`; every other entry is
unchanged at the end of the run. -/
theorem claim7_arguments_frame (env : Env) (args : ArgMap) (k : String)
    (h : k ≠ "iteration") :
    lookupArg (do_train env args).args k = lookupArg args k :=
  loopGo_args_frame env env.forwards.length env.forwards (getIteration args)
    args none k h

theorem claim7_witness :
    lookupArg (do_train ⟨[some [("a", (1 : ℚ))]], 1, true⟩
        [("iteration", ArgVal.natv 0), ("foo", ArgVal.strv "bar")]).args "foo"
      = lookupArg [("iteration", ArgVal.natv 0), ("foo", ArgVal.strv "bar")]
          "foo" :=
  claim7_arguments_frame ⟨[some [("a", (1 : ℚ))]], 1, true⟩
    [("iteration", ArgVal.natv 0), ("foo", ArgVal.strv "bar")] "foo" (by decide)

/-- C8: every call of `visualize` writes the `train/loss` scalar from the
running-average loss meter, and writes learning rates according to
`optimizer_split`: `train/lr` from parameter group 0 when it is false, and
both `train/enc_lr` (group 0) and `train/dec_lr` (group 1) when it is
true. -/
theorem claim8_visualize_scalars (vm i : Nat) :
    Event.scalarWrite "train/loss" (ScalarSrc.meterAvg "loss") i
        ∈ visualize vm true i ∧
    Event.scalarWrite "train/loss" (ScalarSrc.meterAvg "loss") i
        ∈ visualize vm false i ∧
    Event.scalarWrite "train/enc_lr" (ScalarSrc.lrGroup 0) i
        ∈ visualize vm true i ∧
    Event.scalarWrite "train/dec_lr" (ScalarSrc.lrGroup 1) i
        ∈ visualize vm true i ∧
    Event.scalarWrite "train/lr" (ScalarSrc.lrGroup 0) i
        ∈ visualize vm false i := by
  refine ⟨?_, ?_, ?_, ?_, ?_⟩ <;> simp [visualize]

/-- C9: `do_train` fixes `visual_mode` to 5 and calls `visualize` with
`optimizer_split` true, so each dashboard emission writes exactly the three
scalars `train/enc_lr`, `train/dec_lr` and `train/loss`, and no other scalar
name ever reaches the writer from `do_train`. -/
theorem claim9_do_train_scalars (env : Env) (args : ArgMap) :
    (∀ i, visualize 5 true i =
      [Event.scalarWrite "train/enc_lr" (ScalarSrc.lrGroup 0) i,
       Event.scalarWrite "train/dec_lr" (ScalarSrc.lrGroup 1) i,
       Event.scalarWrite "train/loss" (ScalarSrc.meterAvg "loss") i]) ∧
    (∀ n src i, Event.scalarWrite n src i ∈ (do_train env args).trace →
      n = "train/enc_lr" ∨ n = "train/dec_lr" ∨ n = "train/loss") := by
  constructor
  · intro i
    simp [visualize]
  · intro n src i h
    obtain ⟨idx, a, p, f, _, hmem⟩ :=
      loopGo_mem env env.forwards.length env.forwards (getIteration args)
        args none _ h
    exact (iterStep_scalar env env.forwards.length idx a p f n src i hmem).2.2

theorem claim9_witness :
    "train/enc_lr" = "train/enc_lr" ∨ "train/enc_lr" = "train/dec_lr" ∨
      "train/enc_lr" = "train/loss" :=
  (claim9_do_train_scalars ⟨[some [("a", (1 : ℚ))]], 5, true⟩
    [("iteration", ArgVal.natv 0)]).2 "train/enc_lr" (ScalarSrc.lrGroup 0) 1
    (by decide)

/-- C10: when the writer argument is `None`, `visualize` is never invoked and
no scalar is ever written during the run, while the periodic text logging
(every 20 iterations and at the final iteration) still happens. -/
theorem claim10_none_writer (env : Env) (args : ArgMap)
    (hw : env.writerSome = false) :
    (∀ n src i, Event.scalarWrite n src i ∉ (do_train env args).trace) ∧
    ((∀ f ∈ env.forwards, f ≠ none) →
      ∀ i, getIteration args < i →
        i ≤ getIteration args + env.forwards.length →
        (i % 20 = 0 ∨ i = env.forwards.length) →
        Event.logText i ∈ (do_train env args).trace) := by
  constructor
  · intro n src i h
    obtain ⟨idx, a, p, f, _, hmem⟩ :=
      loopGo_mem env env.forwards.length env.forwards (getIteration args)
        args none _ h
    have hws := (iterStep_scalar env env.forwards.length idx a p f n src i hmem).1
    rw [hw] at hws
    exact Bool.false_ne_true hws
  · intro hall i h1 h2 hcond
    exact loopGo_log env env.forwards.length env.forwards (getIteration args)
      args none hall i h1 h2 hcond

theorem claim10_witness :
    Event.scalarWrite "train/lr" (ScalarSrc.lrGroup 0) 1 ∉
      (do_train ⟨[some [("a", (1 : ℚ))]], 5, false⟩
        [("iteration", ArgVal.natv 0)]).trace ∧
    Event.logText 1 ∈
      (do_train ⟨[some [("a", (1 : ℚ))]], 5, false⟩
        [("iteration", ArgVal.natv 0)]).trace :=
  ⟨(claim10_none_writer ⟨[some [("a", (1 : ℚ))]], 5, false⟩
      [("iteration", ArgVal.natv 0)] rfl).1 "train/lr" (ScalarSrc.lrGroup 0) 1,
   (claim10_none_writer ⟨[some [("a", (1 : ℚ))]], 5, false⟩
      [("iteration", ArgVal.natv 0)] rfl).2 (by decide) 1 (by decide) (by decide)
      (by decide)⟩

end NasFcos
